import Mathlib

/-!
Verification of the training/validation orchestration logic of
`src/train.py` (SfmLearner-Pytorch).

The embedding models the pure control/bookkeeping skeleton of the script:
the global step counter `n_iter`, the best-validation-loss tracking
(`best_photo_loss`), the per-step full CSV log, the truncated-epoch
training loop, the diagnostic-emission gating in `train` and `validate`,
the pose sample buffer filled during validation, and the combined
optimizer parameter set.  External numeric computations (network forward
passes and the three loss functions) are abstracted as rational-valued
input streams, since only the orchestration around them is specified.
-/

namespace SfmLearner

/-- A data row of the full per-step CSV log (`args.log_full`):
`(train_loss, photo_loss, explainability_loss, smooth_loss)`, written by
`train.py` line 289.  The one-off header row written at initialization
(line 167) is not modelled as a data row. -/
structure LogRow where
  total : ℚ
  photo : ℚ
  expl : ℚ
  smooth : ℚ
deriving Repr, DecidableEq

/-- The mutable run-wide state threaded through the epoch loop of `main`:
`nIter` is the global step counter `n_iter` (line 67), `bestPhotoLoss` is
`best_photo_loss` (line 66), `fullLog` is the list of data rows appended to
the full CSV log.  `steps` is a ghost counter, incremented once per
executed training-loop body, used to state "number of training steps
actually executed". -/
structure RunState where
  nIter : ℕ
  bestPhotoLoss : ℚ
  fullLog : List LogRow
  steps : ℕ
deriving Repr, DecidableEq

/-- Initial value of `best_photo_loss` (line 66: `best_photo_loss = -1`). -/
def bestPhotoLossInit : ℚ := -1

/-- Loss combination of `train.py` line 242 / 357:
`loss = w1*loss_1 + w2*loss_2 + w3*loss_3`. -/
def combineLoss (w1 w2 w3 p e s : ℚ) : ℚ := w1 * p + w2 * e + w3 * s

/-- The body of the training loop of `train` (lines 225-300), specialized to
its state effects.  `losses i` abstracts the three computed loss terms
`(loss_1, loss_2, loss_3)` of batch `i`.  The loop runs over
`enumerate(train_loader)` (batch index `i` starting at 0, at most
`rem` batches remaining); after processing batch `i` it breaks when
`i >= epoch_size - 1` (line 297) and only otherwise increments `n_iter`
(line 300). -/
def trainSteps (w1 w2 w3 : ℚ) (losses : ℕ → ℚ × ℚ × ℚ) (epochSize : ℕ) :
    ℕ → ℕ → RunState → RunState
  | _, 0, s => s
  | i, rem + 1, s =>
    let l := losses i
    let row : LogRow := ⟨combineLoss w1 w2 w3 l.1 l.2.1 l.2.2, l.1, l.2.1, l.2.2⟩
    let s1 : RunState :=
      { s with fullLog := s.fullLog ++ [row], steps := s.steps + 1 }
    if epochSize - 1 ≤ i then s1
    else trainSteps w1 w2 w3 losses epochSize (i + 1) rem
      { s1 with nIter := s1.nIter + 1 }

/-- One call of `train(...)` (line 177): loop from batch index 0 over the
whole training loader. -/
def trainEpoch (w1 w2 w3 : ℚ) (losses : ℕ → ℚ × ℚ × ℚ)
    (loaderLen epochSize : ℕ) (s : RunState) : RunState :=
  trainSteps w1 w2 w3 losses epochSize 0 loaderLen s

/-- The best-loss / is-best update of `main` (lines 190-195):
`if best_photo_loss < 0: best_photo_loss = valid_photo_loss`;
`is_best = valid_photo_loss < best_photo_loss`;
`best_photo_loss = min(valid_photo_loss, best_photo_loss)`.
Returns the new `best_photo_loss` and the `is_best` flag. -/
def checkpointStep (best validPhoto : ℚ) : ℚ × Bool :=
  let best1 := if best < 0 then validPhoto else best
  (min validPhoto best1, decide (validPhoto < best1))

/-- `main`'s epoch-size substitution (lines 128-129):
`if args.epoch_size == 0: args.epoch_size = len(train_loader)`. -/
def effectiveEpochSize (epochSizeArg loaderLen : ℕ) : ℕ :=
  if epochSizeArg = 0 then loaderLen else epochSizeArg

/-- The epoch loop of `main` (lines 172-208): per epoch, one training pass
followed by validation (whose photometric-loss result `valPhoto ep` is an
abstract input, since the numeric computation is external) and the
best-loss/checkpoint update.  Validation touches neither `nIter`, `steps`,
nor `fullLog`. -/
def runEpochs (w1 w2 w3 : ℚ) (trainLosses : ℕ → ℕ → ℚ × ℚ × ℚ)
    (valPhoto : ℕ → ℚ) (loaderLen epochSize : ℕ) :
    ℕ → ℕ → RunState → RunState
  | _, 0, s => s
  | ep, n + 1, s =>
    let s1 := trainEpoch w1 w2 w3 (trainLosses ep) loaderLen epochSize s
    let r := checkpointStep s1.bestPhotoLoss (valPhoto ep)
    runEpochs w1 w2 w3 trainLosses valPhoto loaderLen epochSize (ep + 1) n
      { s1 with bestPhotoLoss := r.1 }

/-- State at the start of `main`: counters zero, `best_photo_loss = -1`,
empty full log. -/
def initialRunState : RunState :=
  { nIter := 0, bestPhotoLoss := bestPhotoLossInit, fullLog := [], steps := 0 }

/-- A full run of `main`'s epoch loop: epoch-size substitution, then
`epochs` epochs from the initial state. -/
def runAll (w1 w2 w3 : ℚ) (trainLosses : ℕ → ℕ → ℚ × ℚ × ℚ)
    (valPhoto : ℕ → ℚ) (loaderLen epochSizeArg epochs : ℕ) : RunState :=
  runEpochs w1 w2 w3 trainLosses valPhoto loaderLen
    (effectiveEpochSize epochSizeArg loaderLen) 0 epochs initialRunState

/-- Number of training-loop bodies executed by one epoch, as a function of
the loader length and the (effective) epoch size. -/
def trainEpochStepCount (loaderLen epochSize : ℕ) : ℕ :=
  if loaderLen = 0 then 0 else min loaderLen (max epochSize 1)

/-- Well-formedness of a full-log data row: its first field is the weighted
combination `w1*photo + w2*expl + w3*smooth` of the other three
(line 242 feeding line 289). -/
def GoodRow (w1 w2 w3 : ℚ) (r : LogRow) : Prop :=
  r.total = combineLoss w1 w2 w3 r.photo r.expl r.smooth

/-- `best_photo_loss` held before epoch `e`, obtained by folding the
update of lines 190-195 over the validation photometric losses of the
epochs before `e`, starting from the initial `-1`. -/
def bestBefore (losses : List ℚ) (e : ℕ) : ℚ :=
  (losses.take e).foldl (fun b l => (checkpointStep b l).1) bestPhotoLossInit

/-- The `is_best` flag computed at epoch `e` (line 194), given the history
of validation photometric losses. -/
def isBestAt (losses : List ℚ) (e : ℕ) : Bool :=
  (checkpointStep (bestBefore losses e) (losses.getD e 0)).2

/-- One image emission of the training-diagnostics block
(lines 249-273), identified by its tag and indices. -/
inductive TrainTag
  | trainInput (slot : ℕ)
  | dispnetOutput (k : ℕ)
  | depthOutput (k : ℕ)
  | warped (k j : ℕ)
  | diff (k j : ℕ)
  | expMask (k j : ℕ)
deriving Repr, DecidableEq

/-- The diagnostic images emitted by one training step (lines 249-273):
gated by `n_iter % stride == 0 and args.log_output` (line 249; the source
uses the literal stride 200), then three input images, and per disparity
scale `k` a disparity and a depth image plus, per reference `j`, the
warped reference, the photometric residual and the explainability mask. -/
def trainVisEvents (logOutput : Bool) (stride nIter numScales numRefs : ℕ) :
    List TrainTag :=
  if nIter % stride = 0 ∧ logOutput = true then
    [TrainTag.trainInput 0, TrainTag.trainInput 1, TrainTag.trainInput 2] ++
    (List.range numScales).flatMap (fun k =>
      [TrainTag.dispnetOutput k, TrainTag.depthOutput k] ++
      (List.range numRefs).flatMap (fun j =>
        [TrainTag.warped k j, TrainTag.diff k j, TrainTag.expMask k j]))
  else []

/-- One image emission of the validation-diagnostics block
(lines 336-350).  `valInput j slot` is the raw input pair logged on epoch
0 only (slot 0: the target image, slot 1: reference `j`). -/
inductive ValTag
  | valInput (j slot : ℕ)
  | dispnetOutput
  | depthOutput
  | warped (j : ℕ)
  | diff (j : ℕ)
  | expMask (j : ℕ)
deriving Repr, DecidableEq

/-- The images logged for one selected validation batch (lines 338-350),
in source order: on epoch 0 only, the raw target and reference inputs per
reference `j` (lines 338-341); then the disparity and depth outputs
(lines 343-344); then, per reference `j`, the warped reference, the
residual and the explainability mask (lines 346-350). -/
def valVisTags (epoch numRefs : ℕ) : List ValTag :=
  (if epoch = 0 then
    (List.range numRefs).flatMap (fun j =>
      [ValTag.valInput j 0, ValTag.valInput j 1])
  else []) ++
  [ValTag.dispnetOutput, ValTag.depthOutput] ++
  (List.range numRefs).flatMap (fun j =>
    [ValTag.warped j, ValTag.diff j, ValTag.expMask j])

/-- The (channel, image) emissions of validation batch `i`
(lines 336-350): gated by
`log_outputs and i % 100 == 0 and i / 100 < len(output_writers)`
(line 336); every image of the batch goes to the single writer
`output_writers[index]` with `index = i // 100` (line 337).
`channelCount` is `len(output_writers)`, so diagnostics are enabled
(`log_outputs`) iff `0 < channelCount` (line 311). -/
def valVisEvents (channelCount epoch i numRefs : ℕ) : List (ℕ × ValTag) :=
  if 0 < channelCount ∧ i % 100 = 0 ∧ i / 100 < channelCount then
    (valVisTags epoch numRefs).map (fun t => (i / 100, t))
  else []

/-- Write `vals` into `buf` at positions `[start, start + vals.length)`,
the semantics of the numpy slice assignment
`poses[i*step:(i+1)*step] = ...` (line 354) for an exact-fit slice. -/
def setSlice {α : Type} (buf : List α) (start : ℕ) (vals : List α) : List α :=
  buf.take start ++ vals ++ buf.drop (start + vals.length)

/-- The pose-accumulation loop of `validate` (lines 313, 352-354),
abstracted over the buffer row type: starting from the zero-initialized
buffer of `(B-1) * step` rows (`np.zeros(((len(val_loader)-1) *
args.batch_size * (args.sequence_length-1), 6))` with
`step = args.batch_size * (args.sequence_length-1)`), each batch `i` with
`log_outputs and i < len(val_loader) - 1` overwrites the slice
`[i*step, (i+1)*step)` with its flattened poses `batchPose i`. -/
def validatePosesAux {α : Type} (logOutputs : Bool) (B step : ℕ)
    (batchPose : ℕ → List α) : ℕ → ℕ → List α → List α
  | _, 0, buf => buf
  | i, rem + 1, buf =>
    validatePosesAux logOutputs B step batchPose (i + 1) rem
      (if logOutputs = true ∧ i < B - 1 then
        setSlice buf (i * step) (batchPose i)
      else buf)

/-- One row of the pose sample buffer: a 6-DOF pose vector, initialized to
six zeros by `np.zeros(..., 6)` (line 313). -/
def poseRowInit : List ℚ := List.replicate 6 (0 : ℚ)

/-- The pose sample buffer after a validation epoch with `B` batches,
batch size `S` and sequence length `L` (lines 313, 352-354). -/
def validatePoses (logOutputs : Bool) (B S L : ℕ)
    (batchPose : ℕ → List (List ℚ)) : List (List ℚ) :=
  validatePosesAux logOutputs B (S * (L - 1)) batchPose 0 B
    (List.replicate ((B - 1) * S * (L - 1)) poseRowInit)

/-- The six pose components histogrammed after the validation loop
(lines 372-378). -/
inductive PoseComponent
  | tx | ty | tz | rx | ry | rz
deriving Repr, DecidableEq

/-- The (channel, component) histogram emissions after all validation
batches (lines 372-378): when `log_outputs`, one histogram per pose
component, all sent to `output_writers[0]` (channel 0). -/
def poseHistogramEvents (logOutputs : Bool) : List (ℕ × PoseComponent) :=
  if logOutputs = true then
    [(0, PoseComponent.tx), (0, PoseComponent.ty), (0, PoseComponent.tz),
     (0, PoseComponent.rx), (0, PoseComponent.ry), (0, PoseComponent.rz)]
  else []

/-- The combined optimizer parameter set of `main` (lines 154-156):
`parameters = set(); for net_ in [disp_net, pose_exp_net]:
parameters |= set(net_.parameters())`, generalized to any ordered list of
modules; each module's parameter list is identified by parameter ids. -/
def combinedParameters (modules : List (List ℕ)) : Finset ℕ :=
  modules.foldl (fun acc ps => acc ∪ ps.toFinset) ∅

/-- Modelled from the spec: the external adaptive-moment optimizer
(`torch.optim.Adam`, line 157, not part of this repository) applies, per
`optimizer.step()`, exactly one update to each parameter of the set it
was constructed over (spec section 4.2 guarantee).  This counts the updates
parameter `p` receives in one step. -/
def optimizerStepUpdateCount (params : Finset ℕ) (p : ℕ) : ℕ :=
  if p ∈ params then 1 else 0

/-- Modelled from the spec: `AverageMeter` of `logger.py` (imported at
line 19 but not under `src/`); spec section 4.1 RunningStatistic:
`update(value, weight)` adds `value*weight` to the sum and `weight` to
the count and records the last value; `average` is `sum/count`. -/
structure AverageMeter where
  val : ℚ
  sum : ℚ
  count : ℚ
deriving Repr, DecidableEq

def AverageMeter.update (m : AverageMeter) (v w : ℚ) : AverageMeter :=
  { val := v, sum := m.sum + v * w, count := m.count + w }

def AverageMeter.avg (m : AverageMeter) : ℚ := m.sum / m.count

def AverageMeter.init : AverageMeter := { val := 0, sum := 0, count := 0 }

/-- A trainable module as seen by the orchestration: its parameter state
(abstract type) and its training/evaluation mode flag (`.train()` /
`.eval()`). -/
structure ModelState (P : Type) where
  params : P
  training : Bool

/-- Result of one `validate(...)` call: the two model states as left by
the function, and the three returned averages
`losses1.avg, losses2.avg, losses.avg` (line 381). -/
structure ValResult (P Q : Type) where
  dispNet : ModelState P
  poseNet : ModelState Q
  photoAvg : ℚ
  expAvg : ℚ
  totalAvg : ℚ

/-- The state effects of `validate` (lines 305-381) on the two models and
its loss bookkeeping: both models are switched to evaluation mode
(lines 316-317); per batch the three loss terms — computed by the external
loss engine from the frozen parameters and the batch, abstracted as
`lossEngine` — are combined with the training weights (line 357) and fed
into the three running meters; no gradient or optimizer step occurs, and
no assignment to any parameter appears anywhere in the function. -/
def validateEpoch {P Q : Type} (w1 w2 w3 : ℚ)
    (lossEngine : P → Q → ℕ → ℚ × ℚ × ℚ) (numBatches : ℕ)
    (dispNet : ModelState P) (poseNet : ModelState Q) : ValResult P Q :=
  let d : ModelState P := { dispNet with training := false }
  let p : ModelState Q := { poseNet with training := false }
  let ms := (List.range numBatches).foldl
    (fun (ms : AverageMeter × AverageMeter × AverageMeter) i =>
      let l := lossEngine d.params p.params i
      let loss := combineLoss w1 w2 w3 l.1 l.2.1 l.2.2
      (ms.1.update loss 1, ms.2.1.update l.1 1, ms.2.2.update l.2.1 1))
    (AverageMeter.init, AverageMeter.init, AverageMeter.init)
  { dispNet := d, poseNet := p,
    photoAvg := ms.2.1.avg, expAvg := ms.2.2.avg, totalAvg := ms.1.avg }

/-- The dataset module selected by the format flag (lines 72-75):
`stacked` and `sequential` each import a `SequenceFolder`; any other
value imports nothing. -/
inductive SeqFolderKind
  | stacked | sequential
deriving Repr, DecidableEq

def selectSequenceFolder (fmt : String) : Option SeqFolderKind :=
  if fmt = "stacked" then some SeqFolderKind.stacked
  else if fmt = "sequential" then some SeqFolderKind.sequential
  else none

/-- The fatal error raised when `main` reaches line 105
(`train_set = SequenceFolder(...)`) without either import of lines 72-75
having executed: the name `SequenceFolder` is undefined. -/
inductive RunError
  | nameErrorSequenceFolder
deriving Repr, DecidableEq

/-- `main` as a whole: the dataset-format selection (lines 72-75) followed
by the first use of `SequenceFolder` (line 105) — which fails before the
epoch loop if no format matched — and then the full epoch loop. -/
def mainRun (fmt : String) (w1 w2 w3 : ℚ)
    (trainLosses : ℕ → ℕ → ℚ × ℚ × ℚ) (valPhoto : ℕ → ℚ)
    (loaderLen epochSizeArg epochs : ℕ) : Except RunError RunState :=
  match selectSequenceFolder fmt with
  | none => Except.error RunError.nameErrorSequenceFolder
  | some _ =>
    Except.ok (runAll w1 w2 w3 trainLosses valPhoto loaderLen epochSizeArg epochs)

lemma trainSteps_nIter (w1 w2 w3 : ℚ) (losses : ℕ → ℚ × ℚ × ℚ)
    (epochSize : ℕ) :
    ∀ rem i s, (trainSteps w1 w2 w3 losses epochSize i rem s).nIter
      = s.nIter + min rem (epochSize - 1 - i) := by
  intro rem
  induction rem with
  | zero => intro i s; simp [trainSteps]
  | succ n ih =>
    intro i s
    rw [trainSteps]
    by_cases h : epochSize - 1 ≤ i
    · rw [if_pos h]
      have : epochSize - 1 - i = 0 := by omega
      simp [this]
    · rw [if_neg h, ih]
      simp only []
      omega

lemma trainSteps_steps (w1 w2 w3 : ℚ) (losses : ℕ → ℚ × ℚ × ℚ)
    (epochSize : ℕ) :
    ∀ rem i s, (trainSteps w1 w2 w3 losses epochSize i rem s).steps
      = s.steps + (if rem = 0 then 0 else min rem (max (epochSize - i) 1)) := by
  intro rem
  induction rem with
  | zero => intro i s; simp [trainSteps]
  | succ n ih =>
    intro i s
    rw [trainSteps]
    by_cases h : epochSize - 1 ≤ i
    · rw [if_pos h]
      have : min (n + 1) (max (epochSize - i) 1) = 1 := by omega
      simp [this]
    · rw [if_neg h, ih]
      simp only []
      split_ifs <;> first | exact False.elim (by assumption) | omega

lemma trainSteps_best (w1 w2 w3 : ℚ) (losses : ℕ → ℚ × ℚ × ℚ)
    (epochSize : ℕ) :
    ∀ rem i s, (trainSteps w1 w2 w3 losses epochSize i rem s).bestPhotoLoss
      = s.bestPhotoLoss := by
  intro rem
  induction rem with
  | zero => intro i s; simp [trainSteps]
  | succ n ih =>
    intro i s
    rw [trainSteps]
    by_cases h : epochSize - 1 ≤ i
    · rw [if_pos h]
    · rw [if_neg h, ih]

lemma runEpochs_nIter (w1 w2 w3 : ℚ) (trainLosses : ℕ → ℕ → ℚ × ℚ × ℚ)
    (valPhoto : ℕ → ℚ) (loaderLen epochSize : ℕ) :
    ∀ n ep s, (runEpochs w1 w2 w3 trainLosses valPhoto loaderLen epochSize ep n s).nIter
      = s.nIter + n * min loaderLen (epochSize - 1) := by
  intro n
  induction n with
  | zero => intro ep s; simp [runEpochs]
  | succ m ih =>
    intro ep s
    rw [runEpochs, ih]
    simp only [trainEpoch]
    rw [trainSteps_nIter]
    have : epochSize - 1 - 0 = epochSize - 1 := by omega
    rw [this]; ring

lemma runEpochs_steps (w1 w2 w3 : ℚ) (trainLosses : ℕ → ℕ → ℚ × ℚ × ℚ)
    (valPhoto : ℕ → ℚ) (loaderLen epochSize : ℕ) :
    ∀ n ep s, (runEpochs w1 w2 w3 trainLosses valPhoto loaderLen epochSize ep n s).steps
      = s.steps + n * trainEpochStepCount loaderLen epochSize := by
  intro n
  induction n with
  | zero => intro ep s; simp [runEpochs]
  | succ m ih =>
    intro ep s
    rw [runEpochs, ih]
    simp only [trainEpoch]
    rw [trainSteps_steps]
    have : (if loaderLen = 0 then 0 else min loaderLen (max (epochSize - 0) 1))
        = trainEpochStepCount loaderLen epochSize := by
      unfold trainEpochStepCount
      simp
    rw [this]; ring

lemma checkpointStep_of_neg (b l : ℚ) (h : b < 0) :
    checkpointStep b l = (l, false) := by
  unfold checkpointStep
  rw [if_pos h]
  simp [min_self, lt_irrefl]

lemma checkpointStep_of_nonneg (b l : ℚ) (h : 0 ≤ b) :
    checkpointStep b l = (min l b, decide (l < b)) := by
  unfold checkpointStep
  rw [if_neg (not_lt.mpr h)]

lemma bestBefore_zero (losses : List ℚ) :
    bestBefore losses 0 = bestPhotoLossInit := by
  simp [bestBefore]

lemma bestBefore_succ (losses : List ℚ) (e : ℕ) (he : e < losses.length) :
    bestBefore losses (e + 1)
      = (checkpointStep (bestBefore losses e) (losses.getD e 0)).1 := by
  have h1 : losses.take (e + 1) = losses.take e ++ [losses[e]] := by
    rw [List.take_succ, List.getElem?_eq_getElem he]
    rfl
  have h2 : losses.getD e 0 = losses[e] := by
    rw [List.getD_eq_getElem?_getD, List.getElem?_eq_getElem he]
    rfl
  unfold bestBefore
  rw [h1, List.foldl_append, h2]
  rfl

lemma getD_mem (losses : List ℚ) (e : ℕ) (he : e < losses.length) :
    losses.getD e 0 ∈ losses := by
  rw [List.getD_eq_getElem?_getD, List.getElem?_eq_getElem he]
  exact List.getElem_mem he

lemma bestBefore_nonneg (losses : List ℚ) (hpos : ∀ l ∈ losses, 0 ≤ l) :
    ∀ e, 1 ≤ e → e ≤ losses.length → 0 ≤ bestBefore losses e := by
  intro e
  induction e with
  | zero => intro h; omega
  | succ k ih =>
    intro _ hlen
    have hk : k < losses.length := by omega
    rw [bestBefore_succ losses k hk]
    have hl := hpos _ (getD_mem losses k hk)
    rcases Nat.eq_zero_or_pos k with h0 | h0
    · subst h0
      rw [bestBefore_zero,
        checkpointStep_of_neg _ _ (by norm_num [bestPhotoLossInit])]
      exact hl
    · have hb := ih (by omega) (by omega)
      rw [checkpointStep_of_nonneg _ _ hb]
      exact le_min hl hb

lemma trainSteps_inv (w1 w2 w3 : ℚ) (losses : ℕ → ℚ × ℚ × ℚ)
    (epochSize : ℕ) :
    ∀ rem i s, s.fullLog.length = s.steps →
      (∀ r ∈ s.fullLog, GoodRow w1 w2 w3 r) →
      (trainSteps w1 w2 w3 losses epochSize i rem s).fullLog.length
          = (trainSteps w1 w2 w3 losses epochSize i rem s).steps ∧
        ∀ r ∈ (trainSteps w1 w2 w3 losses epochSize i rem s).fullLog,
          GoodRow w1 w2 w3 r := by
  intro rem
  induction rem with
  | zero =>
    intro i s h1 h2
    rw [trainSteps]
    exact ⟨h1, h2⟩
  | succ n ih =>
    intro i s h1 h2
    have hmem : ∀ r ∈ s.fullLog ++
        [(⟨combineLoss w1 w2 w3 (losses i).1 (losses i).2.1 (losses i).2.2,
          (losses i).1, (losses i).2.1, (losses i).2.2⟩ : LogRow)],
        GoodRow w1 w2 w3 r := by
      intro r hr
      rcases List.mem_append.mp hr with hr | hr
      · exact h2 r hr
      · rw [List.mem_singleton.mp hr]
        rfl
    rw [trainSteps]
    by_cases h : epochSize - 1 ≤ i
    · rw [if_pos h]
      refine ⟨?_, hmem⟩
      simp [h1]
    · rw [if_neg h]
      apply ih
      · simp [h1]
      · exact hmem

lemma runEpochs_inv (w1 w2 w3 : ℚ) (trainLosses : ℕ → ℕ → ℚ × ℚ × ℚ)
    (valPhoto : ℕ → ℚ) (loaderLen epochSize : ℕ) :
    ∀ n ep s, s.fullLog.length = s.steps →
      (∀ r ∈ s.fullLog, GoodRow w1 w2 w3 r) →
      (runEpochs w1 w2 w3 trainLosses valPhoto loaderLen epochSize ep n s).fullLog.length
          = (runEpochs w1 w2 w3 trainLosses valPhoto loaderLen epochSize ep n s).steps ∧
        ∀ r ∈ (runEpochs w1 w2 w3 trainLosses valPhoto loaderLen epochSize ep n s).fullLog,
          GoodRow w1 w2 w3 r := by
  intro n
  induction n with
  | zero =>
    intro ep s h1 h2
    rw [runEpochs]
    exact ⟨h1, h2⟩
  | succ m ih =>
    intro ep s h1 h2
    rw [runEpochs]
    apply ih
    · exact (trainSteps_inv w1 w2 w3 (trainLosses ep) epochSize loaderLen 0 s h1 h2).1
    · exact (trainSteps_inv w1 w2 w3 (trainLosses ep) epochSize loaderLen 0 s h1 h2).2

/-- Claim C1, amended.  After a full run the global step counter equals
`epochs * min(streamLength, effectiveEpochSize - 1)`, not
`epochs * min(epochSize, streamLength)`: the loop of `train` breaks
(line 297) *before* the `n_iter += 1` of line 300, so the final executed
step of every epoch that terminates through the break
(`epochSize ≤ streamLength`, including `epochSize = streamLength`) does
not increment the counter; every other executed step increments it
exactly once, and validation never changes it (the result is a closed
form independent of the validation outputs `valPhoto`).  The ghost
counter of executed steps equals
`epochs * trainEpochStepCount streamLength effectiveEpochSize`. -/
theorem globalStep_after_run (w1 w2 w3 : ℚ)
    (trainLosses : ℕ → ℕ → ℚ × ℚ × ℚ) (valPhoto : ℕ → ℚ)
    (loaderLen epochSizeArg epochs : ℕ) :
    (runAll w1 w2 w3 trainLosses valPhoto loaderLen epochSizeArg epochs).nIter
        = epochs * min loaderLen (effectiveEpochSize epochSizeArg loaderLen - 1) ∧
      (runAll w1 w2 w3 trainLosses valPhoto loaderLen epochSizeArg epochs).steps
        = epochs * trainEpochStepCount loaderLen
            (effectiveEpochSize epochSizeArg loaderLen) := by
  unfold runAll
  constructor
  · rw [runEpochs_nIter]
    simp [initialRunState]
  · rw [runEpochs_steps]
    simp [initialRunState]

/-- Claim C1, counterexample.  In the claim's own scenario
(`epochSize = 3`, `trainingStreamLength = 10`, two epochs) the code
leaves the global step counter at 4, not at
`2 * min(3, 10) = 6`: each epoch executes 3 steps but the third step of
each epoch hits the break of line 297 before `n_iter += 1` (line 300). -/
theorem globalStep_after_run_counterexample :
    (runAll 1 1 1 (fun _ _ => (0, 0, 0)) (fun _ => 0) 10 3 2).nIter = 4 ∧
      (4 : ℕ) ≠ 2 * min 3 10 := by
  constructor
  · rfl
  · decide

/-- Claim C2, amended.  Provided every validation photometric loss is
nonnegative, the baseline rule holds as claimed: the first epoch sets
`best_photo_loss` to its own validation photometric loss and is never
flagged as an improvement, and every later epoch `e` is flagged
(`is_best`) iff its loss is strictly below the `best_photo_loss` held
before epoch `e`, after which `best_photo_loss` is the minimum of the
two.  (Without the nonnegativity precondition the claim fails, because
the "unset" test of line 190 is `best_photo_loss < 0`; see the
counterexample.) -/
theorem bestPhotoLoss_rule_of_nonneg (losses : List ℚ)
    (hpos : ∀ l ∈ losses, 0 ≤ l) :
    (0 < losses.length →
      bestBefore losses 1 = losses.getD 0 0 ∧ isBestAt losses 0 = false) ∧
    ∀ e, 0 < e → e < losses.length →
      ((isBestAt losses e = true ↔ losses.getD e 0 < bestBefore losses e) ∧
        bestBefore losses (e + 1)
          = min (losses.getD e 0) (bestBefore losses e)) := by
  constructor
  · intro hlen
    constructor
    · rw [bestBefore_succ losses 0 hlen, bestBefore_zero,
        checkpointStep_of_neg _ _ (by norm_num [bestPhotoLossInit])]
    · unfold isBestAt
      rw [bestBefore_zero,
        checkpointStep_of_neg _ _ (by norm_num [bestPhotoLossInit])]
  · intro e he hlen
    have hb := bestBefore_nonneg losses hpos e (by omega) (by omega)
    constructor
    · unfold isBestAt
      rw [checkpointStep_of_nonneg _ _ hb]
      simp
    · rw [bestBefore_succ losses e hlen, checkpointStep_of_nonneg _ _ hb]

/-- Witness for the amended claim C2, on the spec's own scenario
`[0.8, 0.6, 0.7, 0.5]`: epoch 1 is flagged as an improvement iff its
loss undercuts the previous best. -/
theorem bestPhotoLoss_rule_of_nonneg_witness :
    (∀ l ∈ [(4 : ℚ)/5, 3/5, 7/10, 1/2], 0 ≤ l) ∧
      (isBestAt [(4 : ℚ)/5, 3/5, 7/10, 1/2] 1 = true ↔
        [(4 : ℚ)/5, 3/5, 7/10, 1/2].getD 1 0
          < bestBefore [(4 : ℚ)/5, 3/5, 7/10, 1/2] 1) := by
  have hp : ∀ l ∈ [(4 : ℚ)/5, 3/5, 7/10, 1/2], 0 ≤ l := by
    intro l hl
    simp only [List.mem_cons, List.not_mem_nil, or_false] at hl
    rcases hl with h | h | h | h <;> rw [h] <;> norm_num
  exact ⟨hp, ((bestPhotoLoss_rule_of_nonneg _ hp).2 1 (by omega)
    (by simp)).1⟩

/-- Claim C2, counterexample.  With validation photometric losses
`[-1/2, -7/10]` the claim's later-epoch rule fails: epoch 1's loss
`-7/10` is strictly below the best (`-1/2`) held before epoch 1, yet the
code does not flag epoch 1 as an improvement, because line 190 re-fires
on the negative stored best and overwrites it first. -/
theorem bestPhotoLoss_rule_counterexample :
    isBestAt [-(1/2), -(7/10)] 1 = false ∧
      [(-(1/2) : ℚ), -(7/10)].getD 1 0 < bestBefore [-(1/2), -(7/10)] 1 := by
  constructor
  · simp [isBestAt, bestBefore, bestPhotoLossInit, checkpointStep]
  · simp [bestBefore, bestPhotoLossInit, checkpointStep]
    norm_num

/-- Claim C10.  The "no baseline yet" sentinel for `best_photo_loss` is
the initial value `-1` and the unset test of line 190 is
`best_photo_loss < 0`: at any epoch whose stored best is negative on
entry the baseline is unconditionally overwritten with that epoch's
validation photometric loss and the epoch is not flagged as best, while
at any epoch whose stored best is nonnegative the strict-improvement
rule applies — so the first-epoch-only baseline rule only holds when all
validation photometric losses are nonnegative. -/
theorem bestPhotoLoss_sentinel (b l : ℚ) :
    bestPhotoLossInit = -1 ∧
      (b < 0 → checkpointStep b l = (l, false)) ∧
      (0 ≤ b → checkpointStep b l = (min l b, decide (l < b))) :=
  ⟨rfl, fun h => checkpointStep_of_neg b l h,
    fun h => checkpointStep_of_nonneg b l h⟩

/-- Witness for claim C10 at concrete inputs: a negative stored best
(`-1`) is overwritten without flagging; a nonnegative stored best
(`4/5`) follows the strict-improvement rule. -/
theorem bestPhotoLoss_sentinel_witness :
    ((-1 : ℚ) < 0 ∧ checkpointStep (-1) (4/5) = (4/5, false)) ∧
      ((0 : ℚ) ≤ 4/5 ∧
        checkpointStep (4/5) (3/5)
          = (min (3/5) (4/5), decide ((3/5 : ℚ) < 4/5))) :=
  ⟨⟨by norm_num, (bestPhotoLoss_sentinel (-1) (4/5)).2.1 (by norm_num)⟩,
    ⟨by norm_num, (bestPhotoLoss_sentinel (4/5) (3/5)).2.2 (by norm_num)⟩⟩

/-- Claim C6.  The full per-step log holds exactly one data row per
training step executed (its row count equals the executed-step count),
and each row's first field is exactly the weighted sum
`w1*photo + w2*expl + w3*smooth` of its other three fields — hence
within the claimed tolerance `1e-5`. -/
theorem fullLog_row_properties (w1 w2 w3 : ℚ)
    (trainLosses : ℕ → ℕ → ℚ × ℚ × ℚ) (valPhoto : ℕ → ℚ)
    (loaderLen epochSizeArg epochs : ℕ) :
    (runAll w1 w2 w3 trainLosses valPhoto loaderLen epochSizeArg epochs).fullLog.length
        = (runAll w1 w2 w3 trainLosses valPhoto loaderLen epochSizeArg epochs).steps ∧
      ∀ r ∈ (runAll w1 w2 w3 trainLosses valPhoto loaderLen epochSizeArg epochs).fullLog,
        r.total = w1 * r.photo + w2 * r.expl + w3 * r.smooth ∧
        |r.total - (w1 * r.photo + w2 * r.expl + w3 * r.smooth)| ≤ 1 / 100000 := by
  unfold runAll
  have h := runEpochs_inv w1 w2 w3 trainLosses valPhoto loaderLen
    (effectiveEpochSize epochSizeArg loaderLen) epochs 0 initialRunState
    rfl (by intro r hr; simp [initialRunState] at hr)
  refine ⟨h.1, fun r hr => ?_⟩
  have hg := h.2 r hr
  unfold GoodRow combineLoss at hg
  refine ⟨hg, ?_⟩
  rw [hg, sub_self, abs_zero]
  norm_num

/-- Witness for claim C6: a concrete one-epoch run whose log contains the
row `(0, 0, 0, 0)`, with its first field the weighted sum of the rest. -/
theorem fullLog_row_properties_witness :
    LogRow.mk 0 0 0 0
        ∈ (runAll 1 1 1 (fun _ _ => (0, 0, 0)) (fun _ => 0) 2 2 1).fullLog ∧
      (LogRow.mk 0 0 0 0).total
        = 1 * (LogRow.mk 0 0 0 0).photo + 1 * (LogRow.mk 0 0 0 0).expl
          + 1 * (LogRow.mk 0 0 0 0).smooth := by
  have hmem : LogRow.mk 0 0 0 0
      ∈ (runAll 1 1 1 (fun _ _ => (0, 0, 0)) (fun _ => 0) 2 2 1).fullLog := by
    simp [runAll, runEpochs, trainEpoch, trainSteps, initialRunState,
      combineLoss, effectiveEpochSize]
  exact ⟨hmem, ((fullLog_row_properties 1 1 1 (fun _ _ => (0, 0, 0))
    (fun _ => 0) 2 2 1).2 _ hmem).1⟩

lemma length_flatMap_const {α : Type} (n c : ℕ) (f : ℕ → List α)
    (h : ∀ k, (f k).length = c) :
    ((List.range n).flatMap f).length = n * c := by
  induction n with
  | zero => simp
  | succ m ih =>
    rw [List.range_succ, List.flatMap_append]
    simp only [List.length_append, ih]
    simp [h m]
    ring

/-- Claim C4.  During training, the expensive diagnostic images (the
three inputs, each disparity/depth scale, and per scale and per
reference the warped reference, residual and confidence mask) are
emitted at step `s` iff `s % stride == 0` and diagnostics
(`args.log_output`) are enabled, for every stride at least 1 (the source
hard-codes stride 200 at line 249); when emitted, the image set is
exactly `3 + numScales * (2 + 3 * numRefs)` images. -/
theorem trainVis_gating (logOutput : Bool)
    (stride nIter numScales numRefs : ℕ) (_hstride : 1 ≤ stride) :
    (trainVisEvents logOutput stride nIter numScales numRefs ≠ [] ↔
        (nIter % stride = 0 ∧ logOutput = true)) ∧
      (nIter % stride = 0 → logOutput = true →
        (trainVisEvents logOutput stride nIter numScales numRefs).length
          = 3 + numScales * (2 + 3 * numRefs)) := by
  constructor
  · constructor
    · intro hne
      by_contra hc
      apply hne
      unfold trainVisEvents
      rw [if_neg hc]
    · intro hcond
      unfold trainVisEvents
      rw [if_pos hcond]
      simp
  · intro h1 h2
    unfold trainVisEvents
    rw [if_pos ⟨h1, h2⟩, List.length_append,
      length_flatMap_const numScales (2 + 3 * numRefs)]
    · simp
    · intro k
      rw [List.length_append, length_flatMap_const numRefs 3
        (fun j => [TrainTag.warped k j, TrainTag.diff k j, TrainTag.expMask k j])
        (fun j => rfl)]
      simp
      ring

/-- Witness for claim C4 at the source's stride 200, step 400, 4 scales
and 2 references. -/
theorem trainVis_gating_witness :
    (1 ≤ 200) ∧ trainVisEvents true 200 400 4 2 ≠ [] ∧
      (trainVisEvents true 200 400 4 2).length = 3 + 4 * (2 + 3 * 2) := by
  refine ⟨by decide, ?_, ?_⟩
  · exact (trainVis_gating true 200 400 4 2 (by decide)).1.mpr ⟨by decide, rfl⟩
  · exact (trainVis_gating true 200 400 4 2 (by decide)).2 (by decide) rfl

lemma mem_valVisTags_dispnet (epoch numRefs : ℕ) :
    ValTag.dispnetOutput ∈ valVisTags epoch numRefs := by
  unfold valVisTags
  simp

lemma mem_valVisTags_valInput (epoch numRefs j : ℕ) :
    ValTag.valInput j 0 ∈ valVisTags epoch numRefs ↔
      (epoch = 0 ∧ j < numRefs) := by
  unfold valVisTags
  constructor
  · intro h
    rcases List.mem_append.mp h with h | h
    · rcases List.mem_append.mp h with h | h
      · split_ifs at h with h0
        · simp only [List.mem_flatMap, List.mem_range, List.mem_cons,
            List.not_mem_nil, or_false] at h
          rcases h with ⟨j2, hj2, h | h⟩
          · cases h
            exact ⟨h0, hj2⟩
          · cases h
        · cases h
      · simp at h
    · simp [List.mem_flatMap] at h
  · rintro ⟨h0, hj⟩
    subst h0
    rw [if_pos rfl]
    apply List.mem_append_left
    apply List.mem_append_left
    simp only [List.mem_flatMap, List.mem_range]
    exact ⟨j, hj, by simp⟩

/-- Claim C5.  During a validation epoch with diagnostics enabled
(`channelCount > 0`): for every batch index `i`, a channel `c` receives
visualization output iff `i % 100 = 0`, `i / 100 < channelCount` and
`c = i / 100` (so only the selected channel receives anything at batch
`i`); additionally, the raw target/reference input images go to the
selected channel iff the epoch is 0. -/
theorem valVis_channel_gating (channelCount epoch i numRefs : ℕ)
    (hcc : 0 < channelCount) :
    (∀ c : ℕ, (∃ t, (c, t) ∈ valVisEvents channelCount epoch i numRefs) ↔
        (i % 100 = 0 ∧ i / 100 < channelCount ∧ c = i / 100)) ∧
      (∀ j, j < numRefs →
        (((i / 100, ValTag.valInput j 0)
            ∈ valVisEvents channelCount epoch i numRefs) ↔
          (epoch = 0 ∧ i % 100 = 0 ∧ i / 100 < channelCount))) := by
  by_cases hg : i % 100 = 0 ∧ i / 100 < channelCount
  · have hcond : 0 < channelCount ∧ i % 100 = 0 ∧ i / 100 < channelCount :=
      ⟨hcc, hg.1, hg.2⟩
    constructor
    · intro c
      unfold valVisEvents
      rw [if_pos hcond]
      constructor
      · rintro ⟨t, ht⟩
        rcases List.mem_map.mp ht with ⟨t2, _, heq⟩
        cases heq
        exact ⟨hg.1, hg.2, rfl⟩
      · rintro ⟨_, _, rfl⟩
        exact ⟨ValTag.dispnetOutput,
          List.mem_map_of_mem _ (mem_valVisTags_dispnet epoch numRefs)⟩
    · intro j hj
      unfold valVisEvents
      rw [if_pos hcond]
      constructor
      · intro ht
        rcases List.mem_map.mp ht with ⟨t2, hmem, heq⟩
        have ht2 : t2 = ValTag.valInput j 0 := by
          cases heq
          rfl
        subst ht2
        exact ⟨((mem_valVisTags_valInput epoch numRefs j).mp hmem).1,
          hg.1, hg.2⟩
      · rintro ⟨h0, _, _⟩
        exact List.mem_map_of_mem _
          ((mem_valVisTags_valInput epoch numRefs j).mpr ⟨h0, hj⟩)
  · constructor
    · intro c
      unfold valVisEvents
      rw [if_neg (by tauto)]
      simp only [List.not_mem_nil, exists_false, false_iff]
      tauto
    · intro j hj
      unfold valVisEvents
      rw [if_neg (by tauto)]
      simp only [List.not_mem_nil, false_iff]
      rintro ⟨_, hmod, hdiv⟩
      exact hg ⟨hmod, hdiv⟩

/-- Witness for claim C5: three channels, epoch 0, batch 200 with two
references — channel 2 is selected and receives the raw inputs. -/
theorem valVis_channel_gating_witness :
    (0 : ℕ) < 3 ∧ (∃ t, (2, t) ∈ valVisEvents 3 0 200 2) ∧
      (200 / 100, ValTag.valInput 0 0) ∈ valVisEvents 3 0 200 2 := by
  refine ⟨by decide, ?_, ?_⟩
  · exact ((valVis_channel_gating 3 0 200 2 (by decide)).1 2).mpr
      ⟨by decide, by decide, by decide⟩
  · exact ((valVis_channel_gating 3 0 200 2 (by decide)).2 0 (by decide)).mpr
      ⟨rfl, by decide, by decide⟩

lemma mem_combinedParameters (modules : List (List ℕ)) (p : ℕ) :
    p ∈ combinedParameters modules ↔ ∃ ps ∈ modules, p ∈ ps := by
  unfold combinedParameters
  suffices h : ∀ acc : Finset ℕ,
      (p ∈ modules.foldl (fun acc ps => acc ∪ ps.toFinset) acc ↔
        p ∈ acc ∨ ∃ ps ∈ modules, p ∈ ps) by
    simpa using h ∅
  induction modules with
  | nil => intro acc; simp
  | cons m ms ih =>
    intro acc
    rw [List.foldl_cons, ih]
    simp [Finset.mem_union]
    tauto

/-- Claim C7.  For every ordered list of trainable modules, the combined
optimizer's parameter set is the union of all the modules' parameters
(membership iff some module lists the parameter), and — per the external
optimizer's contract of applying one update to each parameter of its
(duplicate-free) set — stepping it updates every parameter of every
input module exactly once, regardless of how many modules are combined
or how often a parameter is listed. -/
theorem optimizer_param_union (modules : List (List ℕ)) (p : ℕ) :
    (p ∈ combinedParameters modules ↔ ∃ ps ∈ modules, p ∈ ps) ∧
      (optimizerStepUpdateCount (combinedParameters modules) p = 1 ↔
        ∃ ps ∈ modules, p ∈ ps) := by
  refine ⟨mem_combinedParameters modules p, ?_⟩
  unfold optimizerStepUpdateCount
  rw [← mem_combinedParameters modules p]
  split_ifs with h
  · simp [h]
  · simp [h]

/-- Claim C8.  `validate` never mutates model parameters: both models'
parameter states after a validation epoch equal their states before it
(only the training-mode flags are switched to evaluation); no optimizer
step or gradient update occurs during validation. -/
theorem validate_preserves_params {P Q : Type} (w1 w2 w3 : ℚ)
    (lossEngine : P → Q → ℕ → ℚ × ℚ × ℚ) (numBatches : ℕ)
    (dispNet : ModelState P) (poseNet : ModelState Q) :
    (validateEpoch w1 w2 w3 lossEngine numBatches dispNet poseNet).dispNet.params
        = dispNet.params ∧
      (validateEpoch w1 w2 w3 lossEngine numBatches dispNet poseNet).poseNet.params
        = poseNet.params ∧
      (validateEpoch w1 w2 w3 lossEngine numBatches dispNet poseNet).dispNet.training
        = false ∧
      (validateEpoch w1 w2 w3 lossEngine numBatches dispNet poseNet).poseNet.training
        = false :=
  ⟨rfl, rfl, rfl, rfl⟩

/-- Claim C9.  An invalid dataset-format selector (neither `"stacked"`
nor `"sequential"`) is fatal before any training: neither import of
lines 72-75 executes, so the first use of `SequenceFolder` (line 105)
raises before the epoch loop — the run ends with an error and no
training step executes (no `Ok` state, hence no log row, is ever
produced). -/
theorem invalid_dataset_format_fatal (fmt : String) (w1 w2 w3 : ℚ)
    (trainLosses : ℕ → ℕ → ℚ × ℚ × ℚ) (valPhoto : ℕ → ℚ)
    (loaderLen epochSizeArg epochs : ℕ)
    (h1 : fmt ≠ "stacked") (h2 : fmt ≠ "sequential") :
    mainRun fmt w1 w2 w3 trainLosses valPhoto loaderLen epochSizeArg epochs
        = Except.error RunError.nameErrorSequenceFolder ∧
      ∀ s : RunState,
        mainRun fmt w1 w2 w3 trainLosses valPhoto loaderLen epochSizeArg epochs
          ≠ Except.ok s := by
  have hsel : selectSequenceFolder fmt = none := by
    unfold selectSequenceFolder
    rw [if_neg h1, if_neg h2]
  unfold mainRun
  rw [hsel]
  exact ⟨rfl, fun s h => Except.noConfusion h⟩

lemma setSlice_length {α : Type} (buf : List α) (start : ℕ) (vals : List α)
    (h : start + vals.length ≤ buf.length) :
    (setSlice buf start vals).length = buf.length := by
  unfold setSlice
  simp only [List.length_append, List.length_take, List.length_drop]
  omega

lemma setSlice_getElem?_lt {α : Type} (buf : List α) (start : ℕ)
    (vals : List α) (j : ℕ) (hj : j < start) (hs : start ≤ buf.length) :
    (setSlice buf start vals)[j]? = buf[j]? := by
  have hlt : (buf.take start).length = start := by
    simp only [List.length_take]
    omega
  unfold setSlice
  rw [List.getElem?_append_left (by simp only [List.length_append, hlt]; omega),
    List.getElem?_append_left (by rw [hlt]; omega),
    List.getElem?_take_of_lt hj]

lemma setSlice_getElem?_mid {α : Type} (buf : List α) (start : ℕ)
    (vals : List α) (j : ℕ) (hj : j < vals.length) (hs : start ≤ buf.length) :
    (setSlice buf start vals)[start + j]? = vals[j]? := by
  have hlt : (buf.take start).length = start := by
    simp only [List.length_take]
    omega
  unfold setSlice
  rw [List.getElem?_append_left (by simp only [List.length_append, hlt]; omega),
    List.getElem?_append_right (by rw [hlt]; omega), hlt]
  congr 1
  omega

lemma vpa_length {α : Type} (logOutputs : Bool) (B step : ℕ)
    (batchPose : ℕ → List α)
    (hlen : ∀ i, i < B - 1 → (batchPose i).length = step) :
    ∀ rem i buf, buf.length = (B - 1) * step →
      (validatePosesAux logOutputs B step batchPose i rem buf).length
        = (B - 1) * step := by
  intro rem
  induction rem with
  | zero =>
    intro i buf hbuf
    rw [validatePosesAux]
    exact hbuf
  | succ n ih =>
    intro i buf hbuf
    rw [validatePosesAux]
    by_cases hc : logOutputs = true ∧ i < B - 1
    · rw [if_pos hc]
      apply ih
      rw [setSlice_length]
      · exact hbuf
      · rw [hlen i hc.2, hbuf]
        have h1 : (i + 1) * step ≤ (B - 1) * step :=
          Nat.mul_le_mul_right step (by omega)
        have h2 : (i + 1) * step = i * step + step := by ring
        omega
    · rw [if_neg hc]
      exact ih (i + 1) buf hbuf

lemma vpa_getElem?_low {α : Type} (logOutputs : Bool) (B step : ℕ)
    (batchPose : ℕ → List α)
    (hlen : ∀ i, i < B - 1 → (batchPose i).length = step) :
    ∀ rem i buf, buf.length = (B - 1) * step →
      ∀ p, p < i * step →
        (validatePosesAux logOutputs B step batchPose i rem buf)[p]?
          = buf[p]? := by
  intro rem
  induction rem with
  | zero =>
    intro i buf hbuf p hp
    rw [validatePosesAux]
  | succ n ih =>
    intro i buf hbuf p hp
    rw [validatePosesAux]
    by_cases hc : logOutputs = true ∧ i < B - 1
    · rw [if_pos hc]
      have hfit : i * step + (batchPose i).length ≤ buf.length := by
        rw [hlen i hc.2, hbuf]
        have h1 : (i + 1) * step ≤ (B - 1) * step :=
          Nat.mul_le_mul_right step (by omega)
        have h2 : (i + 1) * step = i * step + step := by ring
        omega
      rw [ih (i + 1) _ (by rw [setSlice_length _ _ _ hfit]; exact hbuf) p
        (by have : i * step ≤ (i + 1) * step := Nat.mul_le_mul_right step (by omega); omega)]
      exact setSlice_getElem?_lt buf (i * step) (batchPose i) p hp (by omega)
    · rw [if_neg hc]
      exact ih (i + 1) buf hbuf p
        (by have : i * step ≤ (i + 1) * step := Nat.mul_le_mul_right step (by omega); omega)

lemma vpa_slice {α : Type} (logOutputs : Bool) (B step : ℕ)
    (batchPose : ℕ → List α)
    (hlen : ∀ i, i < B - 1 → (batchPose i).length = step) :
    ∀ rem i buf, buf.length = (B - 1) * step → logOutputs = true →
      ∀ i2, i ≤ i2 → i2 < B - 1 → i2 < i + rem →
        ∀ j, j < step →
          (validatePosesAux logOutputs B step batchPose i rem buf)[i2 * step + j]?
            = (batchPose i2)[j]? := by
  intro rem
  induction rem with
  | zero =>
    intro i buf hbuf hlog i2 hi2 hi2B hi2r j hj
    omega
  | succ n ih =>
    intro i buf hbuf hlog i2 hi2 hi2B hi2r j hj
    rw [validatePosesAux]
    have hiB : i < B - 1 := by omega
    rw [if_pos ⟨hlog, hiB⟩]
    have hfit : i * step + (batchPose i).length ≤ buf.length := by
      rw [hlen i hiB, hbuf]
      have h1 : (i + 1) * step ≤ (B - 1) * step :=
        Nat.mul_le_mul_right step (by omega)
      have h2 : (i + 1) * step = i * step + step := by ring
      omega
    have hbuf2 : (setSlice buf (i * step) (batchPose i)).length = (B - 1) * step := by
      rw [setSlice_length _ _ _ hfit]
      exact hbuf
    rcases Nat.lt_or_ge i2 (i + 1) with hlt | hge
    · have hi2i : i2 = i := by omega
      subst hi2i
      rw [vpa_getElem?_low logOutputs B step batchPose hlen n (i2 + 1) _ hbuf2
        (i2 * step + j)
        (by have h2 : (i2 + 1) * step = i2 * step + step := by ring
            omega)]
      rw [setSlice_getElem?_mid buf (i2 * step) (batchPose i2) j
        (by rw [hlen i2 hi2B]; exact hj) (by omega)]
    · exact ih (i + 1) _ hbuf2 hlog i2 hge hi2B (by omega) j hj

lemma vpa_congr {α : Type} (logOutputs : Bool) (B step : ℕ)
    (f g : ℕ → List α) (hfg : ∀ i, i < B - 1 → g i = f i) :
    ∀ rem i buf,
      validatePosesAux logOutputs B step g i rem buf
        = validatePosesAux logOutputs B step f i rem buf := by
  intro rem
  induction rem with
  | zero =>
    intro i buf
    rw [validatePosesAux, validatePosesAux]
  | succ n ih =>
    intro i buf
    rw [validatePosesAux, validatePosesAux]
    by_cases hc : logOutputs = true ∧ i < B - 1
    · rw [if_pos hc, if_pos hc, hfg i hc.2, ih]
    · rw [if_neg hc, if_neg hc, ih]

/-- Claim C3.  In a validation epoch with `B` batches, batch size `S` and
sequence length `L`: the pose sample buffer has exactly
`(B-1) * S * (L-1)` rows; when diagnostics are enabled, each batch
`i < B - 1` ends up owning exactly the slice
`[i*step, (i+1)*step)` with `step = S * (L-1)` (its flattened poses are
read back there after the loop), the final batch `B-1` never writes (the
result does not depend on its poses at all), and after all batches
exactly one histogram per each of the 6 pose components is emitted, all
to channel 0 only. -/
theorem poseBuffer_properties (B S L : ℕ) (batchPose : ℕ → List (List ℚ))
    (logOutputs : Bool) (hB : 1 ≤ B)
    (hlen : ∀ i, i < B - 1 → (batchPose i).length = S * (L - 1)) :
    (validatePoses logOutputs B S L batchPose).length = (B - 1) * S * (L - 1) ∧
      (logOutputs = true → ∀ i, i < B - 1 → ∀ j, j < S * (L - 1) →
        (validatePoses logOutputs B S L batchPose)[i * (S * (L - 1)) + j]?
          = (batchPose i)[j]?) ∧
      (∀ g : ℕ → List (List ℚ), (∀ i, i < B - 1 → g i = batchPose i) →
        validatePoses logOutputs B S L g = validatePoses logOutputs B S L batchPose) ∧
      ((poseHistogramEvents logOutputs).length
          = (if logOutputs = true then 6 else 0) ∧
        (∀ ev ∈ poseHistogramEvents logOutputs, ev.1 = 0) ∧
        (logOutputs = true →
          (poseHistogramEvents logOutputs).map Prod.snd
            = [PoseComponent.tx, PoseComponent.ty, PoseComponent.tz,
               PoseComponent.rx, PoseComponent.ry, PoseComponent.rz])) := by
  have hinit : (List.replicate ((B - 1) * S * (L - 1)) poseRowInit).length
      = (B - 1) * (S * (L - 1)) := by
    simp [Nat.mul_assoc]
  refine ⟨?_, ?_, ?_, ?_⟩
  · unfold validatePoses
    rw [vpa_length logOutputs B (S * (L - 1)) batchPose hlen B 0 _ hinit]
    rw [Nat.mul_assoc]
  · intro hlog i hi j hj
    unfold validatePoses
    exact vpa_slice logOutputs B (S * (L - 1)) batchPose hlen B 0 _ hinit
      hlog i (Nat.zero_le i) hi (by omega) j hj
  · intro g hg
    unfold validatePoses
    exact vpa_congr logOutputs B (S * (L - 1)) batchPose g hg B 0 _
  · refine ⟨?_, ?_, ?_⟩
    · unfold poseHistogramEvents
      split_ifs <;> rfl
    · intro ev hev
      unfold poseHistogramEvents at hev
      split_ifs at hev
      · simp only [List.mem_cons, List.not_mem_nil, or_false] at hev
        rcases hev with h | h | h | h | h | h <;> rw [h]
      · cases hev
    · intro hlog
      unfold poseHistogramEvents
      rw [if_pos hlog]
      rfl

/-- Witness for claim C3: three validation batches of batch size 2 and
sequence length 3 give an 8-row buffer; batch 1's poses occupy the slice
starting at `1 * 4`. -/
theorem poseBuffer_properties_witness :
    (1 ≤ 3) ∧
      (validatePoses true 3 2 3
          (fun i => List.replicate 4 (List.replicate 6 ((i : ℚ) + 1)))).length
        = 8 ∧
      (validatePoses true 3 2 3
          (fun i => List.replicate 4 (List.replicate 6 ((i : ℚ) + 1))))[1 * (2 * (3 - 1)) + 0]?
        = (List.replicate 4 (List.replicate 6 ((1 : ℚ) + 1)))[0]? := by
  have h := poseBuffer_properties 3 2 3
    (fun i => List.replicate 4 (List.replicate 6 ((i : ℚ) + 1))) true
    (by decide) (fun i _ => by simp)
  refine ⟨by decide, ?_, ?_⟩
  · have h1 := h.1
    norm_num at h1
    exact h1
  · exact h.2.1 rfl 1 (by decide) 0 (by decide)

/-- Witness for claim C9 with the concrete invalid selector `"kitti"`. -/
theorem invalid_dataset_format_fatal_witness :
    ("kitti" ≠ "stacked") ∧ ("kitti" ≠ "sequential") ∧
      mainRun "kitti" 1 1 1 (fun _ _ => (0, 0, 0)) (fun _ => 0) 10 3 2
        = Except.error RunError.nameErrorSequenceFolder :=
  ⟨by decide, by decide,
    (invalid_dataset_format_fatal "kitti" 1 1 1 (fun _ _ => (0, 0, 0))
      (fun _ => 0) 10 3 2 (by decide) (by decide)).1⟩

end SfmLearner
